import Mathlib

set_option maxHeartbeats 1000000
set_option maxRecDepth 8192

/-!
Shallow embedding of the request multiplexer of the network bridge
(`node/network/bridge/src/multiplexer.rs`).

The multiplexer owns one bounded mpsc receiver per request-response protocol
(minus the two withheld protocols), merges them round-robin into a single
stream of decoded messages, and hands the two withheld receivers out once.

External collaborators are abstracted:
* peers, payload bytes and one-shot reply sinks are plain data;
* the per-protocol SCALE decoders (`v1::*Request::decode`) are a parameter
  (`Decoder`), matching the generic `decode_with_peer::<Req>`;
* a `futures::channel::mpsc::Receiver` is its observable state: the buffered
  items, whether the sender side is gone, and whether a poll has already
  yielded `None` (after which it must not be polled again).
-/

namespace Multiplexer

/-- Protocol tags of the request-response registry.  Modelled from the spec:
the `Protocol` enum lives in `polkadot-node-network-protocol`, outside the
sources at hand; the spec fixes the closed variant set and its stable
registration/iteration order. -/
inductive Protocol where
  | ChunkFetching
  | CollationFetching
  | PoVFetching
  | AvailableDataFetching
  | StatementFetching
  | DisputeSending
deriving DecidableEq

/-- Modelled from the spec: iteration order of `Protocol::iter()` (strum
`EnumIter`), which is declaration order. -/
def Protocol.iter : List Protocol :=
  [.ChunkFetching, .CollationFetching, .PoVFetching, .AvailableDataFetching,
   .StatementFetching, .DisputeSending]

/-- Peer identities (`sc_network::PeerId`), abstracted. -/
abbrev PeerId := Nat

/-- Decoding failure details (`parity_scale_codec::Error`), abstracted. -/
abbrev DecodingError := String

/-- `sc_network::config::IncomingRequest`: raw payload bytes, origin peer, and
the one-shot reply sink (abstracted to an identifier). -/
structure IncomingRequest where
  payload : List Nat
  peer : PeerId
  pending_response : Nat
deriving DecidableEq

/-- Observable state of a `futures::channel::mpsc::Receiver`: buffered items,
whether the sender side is gone (`closed`), and whether a poll has already
yielded `None` (`terminated`; the real receiver panics if polled again after
that, which is why the multiplexer guards every poll with `is_terminated`). -/
structure Receiver where
  buffer : List IncomingRequest
  closed : Bool
  terminated : Bool
deriving DecidableEq

/-- A freshly created receiver: empty, open, not terminated. -/
def Receiver.fresh : Receiver := { buffer := [], closed := false, terminated := false }

instance : Inhabited Protocol := ⟨.ChunkFetching⟩

instance : Inhabited Receiver := ⟨Receiver.fresh⟩

/-- Result of one poll of an mpsc receiver (`Poll<Option<T>>`). -/
inductive RecvPoll where
  | pending
  | ready (v : Option IncomingRequest)
deriving DecidableEq

/-- One non-blocking read of an mpsc receiver: a buffered item is delivered
first even if the channel is closed; an empty, closed channel reports
`Ready(None)` and becomes terminated; otherwise the read is pending.
The multiplexer never calls this on a receiver whose `terminated` flag is set
(it checks the flag first to avoid the receiver's poll-after-`None` panic). -/
def Receiver.pollRecv (r : Receiver) : RecvPoll × Receiver :=
  match r.buffer with
  | v :: rest => (.ready (some v), { r with buffer := rest })
  | [] => if r.closed then (.ready none, { r with terminated := true }) else (.pending, r)

/-- `RequestMultiplexError`: decode failure attributed to the origin peer. -/
structure RequestMultiplexError where
  peer : PeerId
  error : DecodingError
deriving DecidableEq

/-- Decoded request wrapped with origin peer and reply sink
(`request_response::request::IncomingRequest::new(peer, payload, pending_response)`);
the decoded payload is abstracted to a value. -/
structure TypedRequest where
  peer : PeerId
  payload : Nat
  pending_response : Nat
deriving DecidableEq

/-- The closed set of routed message variants (`AllMessages::from(...)` for
each non-withheld protocol's typed request). -/
inductive AllMessages where
  | chunkFetching (r : TypedRequest)
  | collationFetching (r : TypedRequest)
  | povFetching (r : TypedRequest)
  | availableDataFetching (r : TypedRequest)
deriving DecidableEq

/-- The protocol tag a routed message carries. -/
def AllMessages.protocol : AllMessages → Protocol
  | .chunkFetching _ => .ChunkFetching
  | .collationFetching _ => .CollationFetching
  | .povFetching _ => .PoVFetching
  | .availableDataFetching _ => .AvailableDataFetching

/-- The family of external per-protocol SCALE decoders, abstracted: for each
protocol, a function from payload bytes to a decoded value or an error. -/
abbrev Decoder := Protocol → List Nat → Except DecodingError Nat

/-- `decode_with_peer::<Req>(peer, payload)`: run the decoder, attributing a
failure to the origin peer. -/
def decode_with_peer (d : List Nat → Except DecodingError Nat) (peer : PeerId)
    (payload : List Nat) : Except RequestMultiplexError Nat :=
  match d payload with
  | .ok v => .ok v
  | .error error => .error { peer := peer, error := error }

/-- `multiplex_single(p, incoming)`: dispatch on the protocol tag, decode the
payload and wrap it into the tag's message variant.  The two withheld tags hit
`unreachable!`, modelled as `none`. -/
def multiplex_single (dec : Decoder) (p : Protocol) (req : IncomingRequest) :
    Option (Except RequestMultiplexError AllMessages) :=
  match p with
  | .ChunkFetching =>
      some ((decode_with_peer (dec .ChunkFetching) req.peer req.payload).map
        fun v => .chunkFetching { peer := req.peer, payload := v, pending_response := req.pending_response })
  | .CollationFetching =>
      some ((decode_with_peer (dec .CollationFetching) req.peer req.payload).map
        fun v => .collationFetching { peer := req.peer, payload := v, pending_response := req.pending_response })
  | .PoVFetching =>
      some ((decode_with_peer (dec .PoVFetching) req.peer req.payload).map
        fun v => .povFetching { peer := req.peer, payload := v, pending_response := req.pending_response })
  | .AvailableDataFetching =>
      some ((decode_with_peer (dec .AvailableDataFetching) req.peer req.payload).map
        fun v => .availableDataFetching { peer := req.peer, payload := v, pending_response := req.pending_response })
  | .StatementFetching => none
  | .DisputeSending => none

/-- Message builder used to state which variant a given tag produces. -/
def msgOf (p : Protocol) (t : TypedRequest) : AllMessages :=
  match p with
  | .CollationFetching => .collationFetching t
  | .PoVFetching => .povFetching t
  | .AvailableDataFetching => .availableDataFetching t
  | _ => .chunkFetching t

/-- The multiplexer state: the round-robin pool of non-withheld receivers (in
registration order), the two withheld slots, and the round-robin cursor. -/
structure RequestMultiplexer where
  receivers : List (Protocol × Receiver)
  statement_fetching : Option Receiver
  dispute_sending : Option Receiver
  next_poll : Nat
deriving DecidableEq

/-- `get_statement_fetching`: `mem::take` of the slot — returns the current
content and leaves `none` behind. -/
def get_statement_fetching (m : RequestMultiplexer) :
    Option Receiver × RequestMultiplexer :=
  (m.statement_fetching, { m with statement_fetching := none })

/-- `get_dispute_sending`: `mem::take` of the slot. -/
def get_dispute_sending (m : RequestMultiplexer) :
    Option Receiver × RequestMultiplexer :=
  (m.dispute_sending, { m with dispute_sending := none })

instance instDecEqExcept {ε α : Type} [DecidableEq ε] [DecidableEq α] :
    DecidableEq (Except ε α) := fun a b =>
  match a, b with
  | .ok x, .ok y =>
    if h : x = y then .isTrue (congrArg Except.ok h)
    else .isFalse fun hc => h (Except.ok.inj hc)
  | .ok _, .error _ => .isFalse fun hc => Except.noConfusion hc
  | .error _, .ok _ => .isFalse fun hc => Except.noConfusion hc
  | .error e, .error f =>
    if h : e = f then .isTrue (congrArg Except.error h)
    else .isFalse fun hc => h (Except.error.inj hc)

/-- Outcome of one `poll_next` call, flattening `Poll<Option<Result<..>>>`
plus the possible `unreachable!` panic inside `multiplex_single`. -/
inductive PollOutcome where
  | pending
  | terminated
  | item (r : Except RequestMultiplexError AllMessages)
  | panicked (p : Protocol)
deriving DecidableEq

/-- Result of the round-robin scan loop.  `early` records that the loop was
left through a `return` (so `next_poll` must not be written back); `polled`
and `produced` are ghost observations: the receiver indices actually polled,
in order, and the index that produced the yielded item, if any. -/
structure LoopRes where
  outcome : PollOutcome
  recvs : List (Protocol × Receiver)
  i : Nat
  early : Bool
  polled : List Nat
  produced : Option Nat
deriving DecidableEq

/-- The `while count > 0` scan of `poll_next`, in round-robin order starting
at absolute position `i` (indices are taken `% len`):
* a receiver already terminated ends the stream at once, without cursor
  update (`early`);
* a pending receiver is skipped (the final result becomes `Pending`);
* a receiver reporting `Ready(None)` ends the whole stream at once (`early`);
* a ready item is dispatched through `multiplex_single` and the scan breaks,
  with the cursor one past the producer. -/
def pollLoop (dec : Decoder) (len : Nat) (recvs : List (Protocol × Receiver))
    (i count : Nat) (result : PollOutcome) : LoopRes :=
  match count with
  | 0 => ⟨result, recvs, i, false, [], none⟩
  | Nat.succ count' =>
    let idx := i % len
    let pr := recvs.getD idx default
    if pr.2.terminated then
      ⟨.terminated, recvs, i, true, [], none⟩
    else
      match pr.2.pollRecv with
      | (.pending, rx) =>
          let res := pollLoop dec len (recvs.set idx (pr.1, rx)) (i + 1) count' .pending
          { res with polled := idx :: res.polled }
      | (.ready none, rx) =>
          ⟨.terminated, recvs.set idx (pr.1, rx), i + 1, true, [idx], none⟩
      | (.ready (some v), rx) =>
          match multiplex_single dec pr.1 v with
          | none => ⟨.panicked pr.1, recvs.set idx (pr.1, rx), i + 1, true, [idx], some idx⟩
          | some r => ⟨.item r, recvs.set idx (pr.1, rx), i + 1, false, [idx], some idx⟩

/-- Result of one production call: the poll outcome and the successor state,
plus the ghost observations of the scan. -/
structure PollResult where
  outcome : PollOutcome
  state : RequestMultiplexer
  polled : List Nat
  produced : Option Nat
deriving DecidableEq

/-- `Stream::poll_next` for the multiplexer: scan the pool round-robin for at
most `len` receivers, starting at the stored cursor; write the cursor back
only when the loop was not left through an early `return`. -/
def poll_next (dec : Decoder) (m : RequestMultiplexer) : PollResult :=
  let len := m.receivers.length
  let res := pollLoop dec len m.receivers m.next_poll len .terminated
  if res.early then
    ⟨res.outcome, { m with receivers := res.recvs }, res.polled, res.produced⟩
  else
    ⟨res.outcome, { m with receivers := res.recvs, next_poll := res.i }, res.polled, res.produced⟩

/-- `FusedStream::is_terminated`: an empty pool is terminated; otherwise
report the terminated flag of the receiver at the cursor. -/
def is_terminated (m : RequestMultiplexer) : Bool :=
  let len := m.receivers.length
  if len = 0 then true
  else ((m.receivers.getD (m.next_poll % len) default).2).terminated

/-- `Protocol::get_config`.  Modelled from the spec: the factory (external to
the sources at hand) yields a fresh receiving handle plus one outbound channel
configuration per tag; the configuration is abstracted to its tag. -/
structure RequestResponseConfig where
  protocol : Protocol
deriving DecidableEq

/-- Modelled from the spec: `Protocol::get_config` returns a fresh receiver
and the tag's channel configuration. -/
def get_config (p : Protocol) : Receiver × RequestResponseConfig :=
  (Receiver.fresh, ⟨p⟩)

/-- `find_map` of the first index whose tag matches, followed by
`Vec::remove` at that index: returns the removed element and the remainder. -/
def extractFirst (p : α → Bool) (l : List α) : Option (α × List α) :=
  match l with
  | [] => none
  | hd :: tl =>
    if p hd then some (hd, tl)
    else
      match extractFirst p tl with
      | none => none
      | some (y, ys) => some (y, hd :: ys)

/-- `RequestMultiplexer::new`, generalized over the registry enumeration:
pair every tag with its receiver and configuration, then pull the
statement-fetching receiver and then the dispute-sending receiver out of the
pool.  A missing withheld tag hits `expect` (a startup panic), modelled as
`none`. -/
def newFrom (en : List Protocol) :
    Option (RequestMultiplexer × List RequestResponseConfig) :=
  let receivers := en.map fun p => (p, (get_config p).1)
  let cfgs := en.map fun p => (get_config p).2
  match extractFirst (fun pr => pr.1 == Protocol.StatementFetching) receivers with
  | none => none
  | some (sf, receivers₁) =>
    match extractFirst (fun pr => pr.1 == Protocol.DisputeSending) receivers₁ with
    | none => none
    | some (ds, receivers₂) =>
      some ({ receivers := receivers₂, statement_fetching := some sf.2,
              dispute_sending := some ds.2, next_poll := 0 }, cfgs)

/-- `RequestMultiplexer::new()`: construction over the actual enumeration. -/
def RequestMultiplexer.new : Option (RequestMultiplexer × List RequestResponseConfig) :=
  newFrom Protocol.iter

/-- The multiplexer state produced by `RequestMultiplexer::new()`. -/
def muxInit : RequestMultiplexer :=
  { receivers := [(.ChunkFetching, .fresh), (.CollationFetching, .fresh),
                  (.PoVFetching, .fresh), (.AvailableDataFetching, .fresh)],
    statement_fetching := some .fresh,
    dispute_sending := some .fresh,
    next_poll := 0 }

/-- Operations a consumer can interleave on a live multiplexer. -/
inductive MuxOp where
  | poll (dec : Decoder)
  | takeStatement
  | takeDispute

/-- State effect of one operation. -/
def applyOp : MuxOp → RequestMultiplexer → RequestMultiplexer
  | .poll dec, m => (poll_next dec m).state
  | .takeStatement, m => (get_statement_fetching m).2
  | .takeDispute, m => (get_dispute_sending m).2

/-- State effect of a sequence of operations. -/
def applyOps : List MuxOp → RequestMultiplexer → RequestMultiplexer
  | [], m => m
  | op :: ops, m => applyOps ops (applyOp op m)

/-- The state after `k` production calls. -/
def pollIter (dec : Decoder) : Nat → RequestMultiplexer → RequestMultiplexer
  | 0, m => m
  | k + 1, m => pollIter dec k (poll_next dec m).state

/-- States reachable from actual construction through the public operations. -/
inductive Reachable : RequestMultiplexer → Prop where
  | init (m : RequestMultiplexer) (cfgs : List RequestResponseConfig)
      (h : RequestMultiplexer.new = some (m, cfgs)) : Reachable m
  | poll (dec : Decoder) (m : RequestMultiplexer) (h : Reachable m) :
      Reachable (poll_next dec m).state
  | takeStatement (m : RequestMultiplexer) (h : Reachable m) :
      Reachable (get_statement_fetching m).2
  | takeDispute (m : RequestMultiplexer) (h : Reachable m) :
      Reachable (get_dispute_sending m).2

/-- A concrete decoder used for witnesses and counterexamples: an empty
payload fails to decode, otherwise the first byte is the decoded value. -/
def dec0 : Decoder := fun _ payload =>
  match payload with
  | [] => .error "empty payload"
  | v :: _ => .ok v

/-- A state with one open, empty pooled channel before one closed, empty
pooled channel, cursor at the open one. -/
def mBug : RequestMultiplexer :=
  { receivers := [(.ChunkFetching, { buffer := [], closed := false, terminated := false }),
                  (.CollationFetching, { buffer := [], closed := true, terminated := false })],
    statement_fetching := none, dispute_sending := none, next_poll := 0 }

/-- A state with a closed, empty pooled channel at index 0 and a pooled
channel holding a buffered item at index 1, cursor at the ready channel. -/
def mC1cex : RequestMultiplexer :=
  { receivers := [(.ChunkFetching, { buffer := [], closed := true, terminated := false }),
                  (.CollationFetching,
                    { buffer := [{ payload := [5], peer := 7, pending_response := 9 }],
                      closed := false, terminated := false })],
    statement_fetching := none, dispute_sending := none, next_poll := 1 }

/-- Same receivers as `mC1cex` but with the cursor at the closed channel. -/
def mC1wit : RequestMultiplexer := { mC1cex with next_poll := 0 }

/-- A single closed, empty, not-yet-terminated pooled channel. -/
def m8 : RequestMultiplexer :=
  { receivers := [(.ChunkFetching, { buffer := [], closed := true, terminated := false })],
    statement_fetching := none, dispute_sending := none, next_poll := 0 }

/-- A state whose cursor channel buffers a request with an undecodable
(empty) payload while the other pooled channel buffers a well-formed one. -/
def mC5 : RequestMultiplexer :=
  { receivers := [(.ChunkFetching,
                    { buffer := [{ payload := [], peer := 4, pending_response := 8 }],
                      closed := false, terminated := false }),
                  (.PoVFetching,
                    { buffer := [{ payload := [6], peer := 5, pending_response := 10 }],
                      closed := false, terminated := false })],
    statement_fetching := none, dispute_sending := none, next_poll := 0 }

/-- Two pooled channels, each holding one ready, decodable item. -/
def mC4 : RequestMultiplexer :=
  { receivers := [(.ChunkFetching,
                    { buffer := [{ payload := [1], peer := 1, pending_response := 1 }],
                      closed := false, terminated := false }),
                  (.PoVFetching,
                    { buffer := [{ payload := [2], peer := 2, pending_response := 2 }],
                      closed := false, terminated := false })],
    statement_fetching := none, dispute_sending := none, next_poll := 0 }

/-- A multiplexer with an empty round-robin pool. -/
def mC7 : RequestMultiplexer :=
  { receivers := [], statement_fetching := some .fresh, dispute_sending := none, next_poll := 5 }

/-! ### List and arithmetic helpers -/

theorem getD_mem {α : Type} (l : List α) (i : Nat) (d : α) (h : i < l.length) :
    l.getD i d ∈ l := by
  rw [List.getD_eq_getElem l d h]
  exact List.getElem_mem h

theorem getD_set_self {α : Type} (l : List α) (i : Nat) (x d : α) (h : i < l.length) :
    (l.set i x).getD i d = x := by
  have hbound : i < (l.set i x).length := by simpa using h
  rw [List.getD_eq_getElem _ d hbound]
  exact List.getElem_set_self hbound

theorem getD_set_ne {α : Type} (l : List α) (i j : Nat) (x d : α) (h : i ≠ j) :
    (l.set i x).getD j d = l.getD j d := by
  by_cases hj : j < l.length
  · have hbound : j < (l.set i x).length := by simpa using hj
    rw [List.getD_eq_getElem _ d hbound, List.getD_eq_getElem _ d hj]
    exact List.getElem_set_ne h hbound
  · have hge : l.length ≤ j := by omega
    rw [List.getD_eq_default _ d (by simpa using hge), List.getD_eq_default _ d hge]

theorem set_getD_eq_self {α : Type} (l : List α) (i : Nat) (d : α) :
    l.set i (l.getD i d) = l := by
  by_cases hi : i < l.length
  · rw [List.getD_eq_getElem l d hi]
    refine List.ext_getElem (by simp) ?_
    intro n h1 h2
    rcases eq_or_ne i n with he | hne
    · subst he
      exact List.getElem_set_self h1
    · exact List.getElem_set_ne hne h1
  · exact List.set_eq_of_length_le (by omega)

theorem map_set_invariant {α β : Type} (l : List α) (i : Nat) (d x : α)
    (f : α → β) (hx : f x = f (l.getD i d)) :
    (l.set i x).map f = l.map f := by
  rw [List.map_set, hx,
    show f (l.getD i d) = (l.map f).getD i (f d) by simp [List.getD_map],
    set_getD_eq_self]

theorem mem_set_subset {α : Type} {l : List α} {i : Nat} {x a : α}
    (h : a ∈ l.set i x) : a = x ∨ a ∈ l := by
  rcases List.mem_or_eq_of_mem_set h with hmem | heq
  · exact Or.inr hmem
  · exact Or.inl heq

theorem add_mod_ne {N : Nat} (c : Nat) {j k : Nat} (hj : j < N) (hk : k < N)
    (hne : j ≠ k) : (c + j) % N ≠ (c + k) % N := by
  intro h
  have hmod : j % N = k % N := Nat.ModEq.add_left_cancel' c h
  rw [Nat.mod_eq_of_lt hj, Nat.mod_eq_of_lt hk] at hmod
  exact hne hmod

theorem exists_add_mod_eq (N c j : Nat) (hN : 0 < N) (hj : j < N) :
    ∃ k, k < N ∧ (c + k) % N = j := by
  refine ⟨(N + j - c % N) % N, Nat.mod_lt _ hN, ?_⟩
  have ha : c % N < N := Nat.mod_lt _ hN
  have hc : N * (c / N) + c % N = c := Nat.div_add_mod c N
  rw [Nat.add_mod_mod]
  have h2 : c + (N + j - c % N) = N * (c / N) + N + j := by omega
  have h3 : N * (c / N) + N + j = N * (c / N + 1) + j := by ring
  rw [h2, h3, Nat.mul_add_mod, Nat.mod_eq_of_lt hj]

/-! ### Inversion lemmas for one receiver poll -/

theorem pollRecv_pending {r r' : Receiver} (h : r.pollRecv = (.pending, r')) :
    r' = r ∧ r.buffer = [] ∧ r.closed = false := by
  unfold Receiver.pollRecv at h
  cases hb : r.buffer with
  | nil =>
    rw [hb] at h
    cases hc : r.closed with
    | false => rw [hc] at h; simp at h; exact ⟨h.symm, rfl, rfl⟩
    | true => rw [hc] at h; simp at h
  | cons v rest => rw [hb] at h; simp at h

theorem pollRecv_ready_none {r r' : Receiver} (h : r.pollRecv = (.ready none, r')) :
    r.buffer = [] ∧ r.closed = true ∧ r' = { r with terminated := true } := by
  unfold Receiver.pollRecv at h
  cases hb : r.buffer with
  | nil =>
    rw [hb] at h
    cases hc : r.closed with
    | false => rw [hc] at h; simp at h
    | true => rw [hc] at h; simp at h; exact ⟨rfl, rfl, h.symm⟩
  | cons v rest => rw [hb] at h; simp at h

theorem pollRecv_ready_some {r r' : Receiver} {v : IncomingRequest}
    (h : r.pollRecv = (.ready (some v), r')) :
    ∃ rest, r.buffer = v :: rest ∧ r' = { r with buffer := rest } := by
  unfold Receiver.pollRecv at h
  cases hb : r.buffer with
  | nil =>
    rw [hb] at h
    cases hc : r.closed with
    | false => rw [hc] at h; simp at h
    | true => rw [hc] at h; simp at h
  | cons w rest =>
    rw [hb] at h
    simp only [Prod.mk.injEq, RecvPoll.ready.injEq, Option.some.injEq] at h
    exact ⟨rest, by rw [h.1], h.2.symm⟩

theorem pollRecv_of_buffer {r : Receiver} {v : IncomingRequest} {rest : List IncomingRequest}
    (h : r.buffer = v :: rest) : r.pollRecv = (.ready (some v), { r with buffer := rest }) := by
  unfold Receiver.pollRecv
  rw [h]

theorem pollRecv_of_closed {r : Receiver} (hb : r.buffer = [])
    (hc : r.closed = true) : r.pollRecv = (.ready none, { r with terminated := true }) := by
  unfold Receiver.pollRecv
  rw [hb, hc]
  simp

theorem pollRecv_of_open {r : Receiver} (hb : r.buffer = [])
    (hc : r.closed = false) : r.pollRecv = (.pending, r) := by
  unfold Receiver.pollRecv
  rw [hb, hc]
  simp

/-! ### Unfolding lemmas for the scan loop -/

theorem pollLoop_zero (dec : Decoder) (len : Nat) (recvs : List (Protocol × Receiver))
    (i : Nat) (result : PollOutcome) :
    pollLoop dec len recvs i 0 result = ⟨result, recvs, i, false, [], none⟩ := rfl

theorem pollLoop_term (dec : Decoder) {len : Nat} {recvs : List (Protocol × Receiver)}
    {i : Nat} (c : Nat) (result : PollOutcome)
    (ht : (recvs.getD (i % len) default).2.terminated = true) :
    pollLoop dec len recvs i (c + 1) result = ⟨.terminated, recvs, i, true, [], none⟩ := by
  simp only [pollLoop, ht, if_true]

theorem pollLoop_pending (dec : Decoder) {len : Nat} {recvs : List (Protocol × Receiver)}
    {i : Nat} (c : Nat) (result : PollOutcome) {rx : Receiver}
    (ht : (recvs.getD (i % len) default).2.terminated = false)
    (hp : (recvs.getD (i % len) default).2.pollRecv = (.pending, rx)) :
    pollLoop dec len recvs i (c + 1) result =
      { pollLoop dec len (recvs.set (i % len) ((recvs.getD (i % len) default).1, rx))
          (i + 1) c .pending with
        polled := (i % len) ::
          (pollLoop dec len (recvs.set (i % len) ((recvs.getD (i % len) default).1, rx))
            (i + 1) c .pending).polled } := by
  simp only [pollLoop, ht, Bool.false_eq_true, if_false, hp]

theorem pollLoop_close (dec : Decoder) {len : Nat} {recvs : List (Protocol × Receiver)}
    {i : Nat} (c : Nat) (result : PollOutcome) {rx : Receiver}
    (ht : (recvs.getD (i % len) default).2.terminated = false)
    (hp : (recvs.getD (i % len) default).2.pollRecv = (.ready none, rx)) :
    pollLoop dec len recvs i (c + 1) result =
      ⟨.terminated, recvs.set (i % len) ((recvs.getD (i % len) default).1, rx),
        i + 1, true, [i % len], none⟩ := by
  simp only [pollLoop, ht, Bool.false_eq_true, if_false, hp]

theorem pollLoop_yield (dec : Decoder) {len : Nat} {recvs : List (Protocol × Receiver)}
    {i : Nat} (c : Nat) (result : PollOutcome) {rx : Receiver} {v : IncomingRequest}
    {r : Except RequestMultiplexError AllMessages}
    (ht : (recvs.getD (i % len) default).2.terminated = false)
    (hp : (recvs.getD (i % len) default).2.pollRecv = (.ready (some v), rx))
    (hm : multiplex_single dec (recvs.getD (i % len) default).1 v = some r) :
    pollLoop dec len recvs i (c + 1) result =
      ⟨.item r, recvs.set (i % len) ((recvs.getD (i % len) default).1, rx),
        i + 1, false, [i % len], some (i % len)⟩ := by
  simp only [pollLoop, ht, Bool.false_eq_true, if_false, hp, hm]

theorem pollLoop_panic (dec : Decoder) {len : Nat} {recvs : List (Protocol × Receiver)}
    {i : Nat} (c : Nat) (result : PollOutcome) {rx : Receiver} {v : IncomingRequest}
    (ht : (recvs.getD (i % len) default).2.terminated = false)
    (hp : (recvs.getD (i % len) default).2.pollRecv = (.ready (some v), rx))
    (hm : multiplex_single dec (recvs.getD (i % len) default).1 v = none) :
    pollLoop dec len recvs i (c + 1) result =
      ⟨.panicked (recvs.getD (i % len) default).1,
        recvs.set (i % len) ((recvs.getD (i % len) default).1, rx),
        i + 1, true, [i % len], some (i % len)⟩ := by
  simp only [pollLoop, ht, Bool.false_eq_true, if_false, hp, hm]

theorem pollLoop_term' (dec : Decoder) {len : Nat} {recvs : List (Protocol × Receiver)}
    {i count : Nat} (result : PollOutcome) (hc : 0 < count)
    (ht : (recvs.getD (i % len) default).2.terminated = true) :
    pollLoop dec len recvs i count result = ⟨.terminated, recvs, i, true, [], none⟩ := by
  cases count with
  | zero => omega
  | succ c => exact pollLoop_term dec c result ht

theorem pollLoop_close' (dec : Decoder) {len : Nat} {recvs : List (Protocol × Receiver)}
    {i count : Nat} (result : PollOutcome) {rx : Receiver} (hc : 0 < count)
    (ht : (recvs.getD (i % len) default).2.terminated = false)
    (hp : (recvs.getD (i % len) default).2.pollRecv = (.ready none, rx)) :
    pollLoop dec len recvs i count result =
      ⟨.terminated, recvs.set (i % len) ((recvs.getD (i % len) default).1, rx),
        i + 1, true, [i % len], none⟩ := by
  cases count with
  | zero => omega
  | succ c => exact pollLoop_close dec c result ht hp

theorem pollLoop_yield' (dec : Decoder) {len : Nat} {recvs : List (Protocol × Receiver)}
    {i count : Nat} (result : PollOutcome) {rx : Receiver} {v : IncomingRequest}
    {r : Except RequestMultiplexError AllMessages} (hc : 0 < count)
    (ht : (recvs.getD (i % len) default).2.terminated = false)
    (hp : (recvs.getD (i % len) default).2.pollRecv = (.ready (some v), rx))
    (hm : multiplex_single dec (recvs.getD (i % len) default).1 v = some r) :
    pollLoop dec len recvs i count result =
      ⟨.item r, recvs.set (i % len) ((recvs.getD (i % len) default).1, rx),
        i + 1, false, [i % len], some (i % len)⟩ := by
  cases count with
  | zero => omega
  | succ c => exact pollLoop_yield dec c result ht hp hm

/-! ### Dispatch lemmas -/

theorem multiplex_single_nonwithheld (dec : Decoder) {p : Protocol} (req : IncomingRequest)
    (h1 : p ≠ .StatementFetching) (h2 : p ≠ .DisputeSending) :
    multiplex_single dec p req =
      some ((decode_with_peer (dec p) req.peer req.payload).map
        fun v => msgOf p { peer := req.peer, payload := v, pending_response := req.pending_response }) := by
  cases p <;> first
    | rfl
    | exact absurd rfl h1
    | exact absurd rfl h2

theorem multiplex_single_withheld (dec : Decoder) {p : Protocol} (req : IncomingRequest)
    (h : p = .StatementFetching ∨ p = .DisputeSending) :
    multiplex_single dec p req = none := by
  rcases h with h | h <;> rw [h] <;> rfl

theorem multiplex_single_protocol {dec : Decoder} {p : Protocol} {req : IncomingRequest}
    {a : AllMessages} (h : multiplex_single dec p req = some (.ok a)) :
    a.protocol = p := by
  cases p
  case StatementFetching => simp [multiplex_single] at h
  case DisputeSending => simp [multiplex_single] at h
  all_goals
    simp only [multiplex_single, Option.some.injEq] at h
    rcases hd : decode_with_peer (dec _) req.peer req.payload with e | v <;> rw [hd] at h
    · simp only [Except.map] at h
      exact Except.noConfusion h
    · simp only [Except.map, Except.ok.injEq] at h
      rw [← h]
      rfl

/-! ### Field preservation by a production call -/

theorem pollLoop_map_fst (dec : Decoder) (len : Nat) :
    ∀ (count : Nat) (recvs : List (Protocol × Receiver)) (i : Nat) (result : PollOutcome),
      ((pollLoop dec len recvs i count result).recvs).map Prod.fst = recvs.map Prod.fst := by
  intro count
  induction count with
  | zero => intro recvs i result; rfl
  | succ c ih =>
    intro recvs i result
    by_cases ht : (recvs.getD (i % len) default).2.terminated = true
    · rw [pollLoop_term dec c result ht]
    · have ht' : (recvs.getD (i % len) default).2.terminated = false := by
        simpa using ht
      rcases hp : (recvs.getD (i % len) default).2.pollRecv with ⟨rp, rx⟩
      cases rp with
      | pending =>
        rw [pollLoop_pending dec c result ht' hp]
        dsimp only
        rw [ih]
        exact map_set_invariant _ _ _ _ _ rfl
      | ready v =>
        cases v with
        | none =>
          rw [pollLoop_close dec c result ht' hp]
          exact map_set_invariant _ _ _ _ _ rfl
        | some v =>
          rcases hm : multiplex_single dec (recvs.getD (i % len) default).1 v with _ | r
          · rw [pollLoop_panic dec c result ht' hp hm]
            exact map_set_invariant _ _ _ _ _ rfl
          · rw [pollLoop_yield dec c result ht' hp hm]
            exact map_set_invariant _ _ _ _ _ rfl

theorem poll_next_statement_fetching (dec : Decoder) (m : RequestMultiplexer) :
    (poll_next dec m).state.statement_fetching = m.statement_fetching := by
  unfold poll_next
  dsimp only
  split <;> rfl

theorem poll_next_dispute_sending (dec : Decoder) (m : RequestMultiplexer) :
    (poll_next dec m).state.dispute_sending = m.dispute_sending := by
  unfold poll_next
  dsimp only
  split <;> rfl

theorem poll_next_map_fst (dec : Decoder) (m : RequestMultiplexer) :
    (poll_next dec m).state.receivers.map Prod.fst = m.receivers.map Prod.fst := by
  unfold poll_next
  dsimp only
  split <;> exact pollLoop_map_fst dec _ _ _ _ _

/-- The basic production step: if the receiver at the cursor is live and holds
a buffered item that dispatches to `r`, the call yields `r`, pops that item,
and moves the cursor one past the producer. -/
theorem poll_next_ready_step (dec : Decoder) (m : RequestMultiplexer)
    {p : Protocol} {rx : Receiver} {v : IncomingRequest} {rest : List IncomingRequest}
    {r : Except RequestMultiplexError AllMessages}
    (hlen : 0 < m.receivers.length)
    (hget : m.receivers.getD (m.next_poll % m.receivers.length) default = (p, rx))
    (hterm : rx.terminated = false)
    (hbuf : rx.buffer = v :: rest)
    (hms : multiplex_single dec p v = some r) :
    poll_next dec m = ⟨.item r,
      { m with
          receivers := m.receivers.set (m.next_poll % m.receivers.length)
            (p, { rx with buffer := rest }),
          next_poll := m.next_poll + 1 },
      [m.next_poll % m.receivers.length], some (m.next_poll % m.receivers.length)⟩ := by
  have ht' : (m.receivers.getD (m.next_poll % m.receivers.length) default).2.terminated = false := by
    rw [hget]; exact hterm
  have hp' : (m.receivers.getD (m.next_poll % m.receivers.length) default).2.pollRecv =
      (.ready (some v), { rx with buffer := rest }) := by
    rw [hget]; exact pollRecv_of_buffer hbuf
  have hm' : multiplex_single dec
      (m.receivers.getD (m.next_poll % m.receivers.length) default).1 v = some r := by
    rw [hget]; exact hms
  have hL := pollLoop_yield' dec .terminated hlen ht' hp' hm'
  unfold poll_next
  dsimp only
  rw [hL, hget]
  rfl

/-! ### Early-return analysis of end-of-stream results -/

theorem pollLoop_pending_early (dec : Decoder) (len : Nat) :
    ∀ (count : Nat) (recvs : List (Protocol × Receiver)) (i : Nat),
      (pollLoop dec len recvs i count .pending).outcome = .terminated →
      (pollLoop dec len recvs i count .pending).early = true := by
  intro count
  induction count with
  | zero => intro recvs i h; simp [pollLoop_zero] at h
  | succ c ih =>
    intro recvs i h
    by_cases ht : (recvs.getD (i % len) default).2.terminated = true
    · rw [pollLoop_term dec c .pending ht]
    · have ht' : (recvs.getD (i % len) default).2.terminated = false := by simpa using ht
      rcases hp : (recvs.getD (i % len) default).2.pollRecv with ⟨rp, rx⟩
      cases rp with
      | pending =>
        rw [pollLoop_pending dec c .pending ht' hp] at h ⊢
        exact ih _ _ h
      | ready v =>
        cases v with
        | none => rw [pollLoop_close dec c .pending ht' hp]
        | some v =>
          rcases hm : multiplex_single dec (recvs.getD (i % len) default).1 v with _ | r
          · rw [pollLoop_panic dec c .pending ht' hp hm]
          · rw [pollLoop_yield dec c .pending ht' hp hm] at h
            simp at h

theorem pollLoop_term_cases (dec : Decoder) (len : Nat) :
    ∀ (count : Nat) (recvs : List (Protocol × Receiver)) (i : Nat) (result : PollOutcome),
      (pollLoop dec len recvs i count result).outcome = .terminated →
      (pollLoop dec len recvs i count result).early = true ∨
        pollLoop dec len recvs i count result = ⟨result, recvs, i, false, [], none⟩ := by
  intro count
  induction count with
  | zero => intro recvs i result _; exact Or.inr (pollLoop_zero dec len recvs i result)
  | succ c _ =>
    intro recvs i result h
    by_cases ht : (recvs.getD (i % len) default).2.terminated = true
    · rw [pollLoop_term dec c result ht]
      exact Or.inl rfl
    · have ht' : (recvs.getD (i % len) default).2.terminated = false := by simpa using ht
      rcases hp : (recvs.getD (i % len) default).2.pollRecv with ⟨rp, rx⟩
      cases rp with
      | pending =>
        rw [pollLoop_pending dec c result ht' hp] at h ⊢
        exact Or.inl (pollLoop_pending_early dec len c _ _ h)
      | ready v =>
        cases v with
        | none =>
          rw [pollLoop_close dec c result ht' hp]
          exact Or.inl rfl
        | some v =>
          rcases hm : multiplex_single dec (recvs.getD (i % len) default).1 v with _ | r
          · rw [pollLoop_panic dec c result ht' hp hm]
            exact Or.inl rfl
          · rw [pollLoop_yield dec c result ht' hp hm] at h
            simp at h

/-- When the scan ends the stream, the pool's protocols, buffered items and
closed flags are untouched (only a terminated flag may be set). -/
theorem pollLoop_term_frame (dec : Decoder) (len : Nat) :
    ∀ (count : Nat) (recvs : List (Protocol × Receiver)) (i : Nat) (result : PollOutcome),
      (pollLoop dec len recvs i count result).outcome = .terminated →
      (pollLoop dec len recvs i count result).recvs.map (fun pr => pr.2.buffer) =
        recvs.map (fun pr => pr.2.buffer) ∧
      (pollLoop dec len recvs i count result).recvs.map (fun pr => pr.2.closed) =
        recvs.map (fun pr => pr.2.closed) := by
  intro count
  induction count with
  | zero => intro recvs i result _; rw [pollLoop_zero]; exact ⟨rfl, rfl⟩
  | succ c ih =>
    intro recvs i result h
    by_cases ht : (recvs.getD (i % len) default).2.terminated = true
    · rw [pollLoop_term dec c result ht]
      exact ⟨rfl, rfl⟩
    · have ht' : (recvs.getD (i % len) default).2.terminated = false := by simpa using ht
      rcases hp : (recvs.getD (i % len) default).2.pollRecv with ⟨rp, rx⟩
      cases rp with
      | pending =>
        obtain ⟨hrx, -, -⟩ := pollRecv_pending hp
        rw [pollLoop_pending dec c result ht' hp] at h ⊢
        dsimp only at h ⊢
        have hset : recvs.set (i % len) ((recvs.getD (i % len) default).1, rx) = recvs := by
          rw [hrx]
          conv_lhs => rw [show ((recvs.getD (i % len) default).1,
            (recvs.getD (i % len) default).2) = recvs.getD (i % len) default from rfl]
          exact set_getD_eq_self recvs (i % len) default
        rw [hset] at h ⊢
        exact ih _ _ _ h
      | ready v =>
        cases v with
        | none =>
          obtain ⟨-, -, hrx⟩ := pollRecv_ready_none hp
          rw [pollLoop_close dec c result ht' hp]
          dsimp only
          constructor
          · exact map_set_invariant _ _ _ _ _ (by rw [hrx])
          · exact map_set_invariant _ _ _ _ _ (by rw [hrx])
        | some v =>
          rcases hm : multiplex_single dec (recvs.getD (i % len) default).1 v with _ | r
          · rw [pollLoop_panic dec c result ht' hp hm] at h
            simp at h
          · rw [pollLoop_yield dec c result ht' hp hm] at h
            simp at h

theorem set_cursor_self (recvs : List (Protocol × Receiver)) (idx : Nat) {rx : Receiver}
    (hrx : rx = (recvs.getD idx default).2) :
    recvs.set idx ((recvs.getD idx default).1, rx) = recvs := by
  rw [hrx]
  conv_lhs => rw [show ((recvs.getD idx default).1,
    (recvs.getD idx default).2) = recvs.getD idx default from rfl]
  exact set_getD_eq_self recvs idx default

/-! ### Panic-freedom of the scan under the construction invariant -/

theorem pollLoop_safe (dec : Decoder) (len : Nat) :
    ∀ (count : Nat) (recvs : List (Protocol × Receiver)) (i : Nat) (result : PollOutcome),
      (∀ pr ∈ recvs, pr.1 ≠ Protocol.StatementFetching ∧ pr.1 ≠ Protocol.DisputeSending) →
      (result = .pending ∨ result = .terminated) →
      (∀ q, (pollLoop dec len recvs i count result).outcome ≠ .panicked q) ∧
      (∀ a, (pollLoop dec len recvs i count result).outcome = .item (.ok a) →
        a.protocol ≠ Protocol.StatementFetching ∧ a.protocol ≠ Protocol.DisputeSending) := by
  intro count
  induction count with
  | zero =>
    intro recvs i result _ hres
    rw [pollLoop_zero]
    rcases hres with h | h <;> rw [h]
    · exact ⟨fun q hc => PollOutcome.noConfusion hc, fun a hc => PollOutcome.noConfusion hc⟩
    · exact ⟨fun q hc => PollOutcome.noConfusion hc, fun a hc => PollOutcome.noConfusion hc⟩
  | succ c ih =>
    intro recvs i result hfst hres
    have hd : (recvs.getD (i % len) default).1 ≠ Protocol.StatementFetching ∧
        (recvs.getD (i % len) default).1 ≠ Protocol.DisputeSending := by
      by_cases hlt : i % len < recvs.length
      · exact hfst _ (getD_mem _ _ _ hlt)
      · rw [List.getD_eq_default _ _ (by omega)]
        exact ⟨fun hc => Protocol.noConfusion hc, fun hc => Protocol.noConfusion hc⟩
    by_cases ht : (recvs.getD (i % len) default).2.terminated = true
    · rw [pollLoop_term dec c result ht]
      exact ⟨fun q hc => PollOutcome.noConfusion hc, fun a hc => PollOutcome.noConfusion hc⟩
    · have ht' : (recvs.getD (i % len) default).2.terminated = false := by simpa using ht
      rcases hp : (recvs.getD (i % len) default).2.pollRecv with ⟨rp, rx⟩
      cases rp with
      | pending =>
        rw [pollLoop_pending dec c result ht' hp]
        dsimp only
        refine ih _ _ _ ?_ (Or.inl rfl)
        intro pr hpr
        rcases mem_set_subset hpr with h' | h'
        · rw [h']
          exact hd
        · exact hfst _ h'
      | ready v =>
        cases v with
        | none =>
          rw [pollLoop_close dec c result ht' hp]
          exact ⟨fun q hc => PollOutcome.noConfusion hc, fun a hc => PollOutcome.noConfusion hc⟩
        | some v =>
          rcases hm : multiplex_single dec (recvs.getD (i % len) default).1 v with _ | r
          · rw [multiplex_single_nonwithheld dec v hd.1 hd.2] at hm
            exact Option.noConfusion hm
          · rw [pollLoop_yield dec c result ht' hp hm]
            refine ⟨fun q hc => PollOutcome.noConfusion hc, ?_⟩
            intro a hc
            have : r = .ok a := by
              injection hc
            rw [this] at hm
            rw [multiplex_single_protocol hm]
            exact hd

/-! ### The scan polls each receiver at most once -/

theorem pollLoop_polled_spec (dec : Decoder) (len : Nat) :
    ∀ (count : Nat) (recvs : List (Protocol × Receiver)) (i : Nat) (result : PollOutcome),
      ∃ t, t ≤ count ∧
        (pollLoop dec len recvs i count result).polled =
          (List.range t).map (fun k => (i + k) % len) := by
  intro count
  induction count with
  | zero => intro recvs i result; exact ⟨0, Nat.le_refl 0, by rw [pollLoop_zero]; rfl⟩
  | succ c ih =>
    intro recvs i result
    by_cases ht : (recvs.getD (i % len) default).2.terminated = true
    · exact ⟨0, Nat.zero_le _, by rw [pollLoop_term dec c result ht]; rfl⟩
    · have ht' : (recvs.getD (i % len) default).2.terminated = false := by simpa using ht
      rcases hp : (recvs.getD (i % len) default).2.pollRecv with ⟨rp, rx⟩
      cases rp with
      | pending =>
        obtain ⟨t, htc, heq⟩ := ih (recvs.set (i % len) ((recvs.getD (i % len) default).1, rx))
          (i + 1) .pending
        refine ⟨t + 1, by omega, ?_⟩
        rw [pollLoop_pending dec c result ht' hp]
        dsimp only
        rw [heq, List.range_succ_eq_map, List.map_cons, List.map_map]
        have hfun : ((fun k => (i + k) % len) ∘ Nat.succ) = fun k => (i + 1 + k) % len := by
          funext k
          simp only [Function.comp]
          rw [show i + Nat.succ k = i + 1 + k by omega]
        simp [hfun]
      | ready v =>
        cases v with
        | none =>
          refine ⟨1, by omega, ?_⟩
          rw [pollLoop_close dec c result ht' hp]
          simp [List.range_succ]
        | some v =>
          rcases hm : multiplex_single dec (recvs.getD (i % len) default).1 v with _ | r
          · refine ⟨1, by omega, ?_⟩
            rw [pollLoop_panic dec c result ht' hp hm]
            simp [List.range_succ]
          · refine ⟨1, by omega, ?_⟩
            rw [pollLoop_yield dec c result ht' hp hm]
            simp [List.range_succ]

/-! ### Fail-fast: a closure observed before any ready item ends the stream -/

theorem pollLoop_scan_closure (dec : Decoder) (len : Nat) :
    ∀ (j count : Nat) (recvs : List (Protocol × Receiver)) (i : Nat) (result : PollOutcome),
      j < count →
      (∀ t, t < j → (recvs.getD ((i + t) % len) default).2.terminated = false ∧
        (recvs.getD ((i + t) % len) default).2.buffer = [] ∧
        (recvs.getD ((i + t) % len) default).2.closed = false) →
      (recvs.getD ((i + j) % len) default).2.terminated = false →
      (recvs.getD ((i + j) % len) default).2.buffer = [] →
      (recvs.getD ((i + j) % len) default).2.closed = true →
      (pollLoop dec len recvs i count result).outcome = .terminated := by
  intro j
  induction j with
  | zero =>
    intro count recvs i result hjc hpend ht hb hc
    rw [Nat.add_zero] at ht hb hc
    have hp : (recvs.getD (i % len) default).2.pollRecv =
        (.ready none, { (recvs.getD (i % len) default).2 with terminated := true }) :=
      pollRecv_of_closed hb hc
    rw [pollLoop_close' dec result hjc ht hp]
  | succ j ih =>
    intro count recvs i result hjc hpend ht hb hc
    cases count with
    | zero => omega
    | succ c =>
      obtain ⟨ht0, hb0, hc0⟩ := hpend 0 (Nat.succ_pos j)
      rw [Nat.add_zero] at ht0 hb0 hc0
      have hp : (recvs.getD (i % len) default).2.pollRecv =
          (.pending, (recvs.getD (i % len) default).2) := pollRecv_of_open hb0 hc0
      rw [pollLoop_pending dec c result ht0 hp]
      dsimp only
      rw [set_cursor_self recvs (i % len) rfl]
      refine ih c recvs (i + 1) .pending (by omega) ?_ ?_ ?_ ?_
      · intro t htj
        have := hpend (t + 1) (by omega)
        rw [show i + (t + 1) = i + 1 + t by omega] at this
        exact this
      · rw [show i + 1 + j = i + (j + 1) by omega]
        exact ht
      · rw [show i + 1 + j = i + (j + 1) by omega]
        exact hb
      · rw [show i + 1 + j = i + (j + 1) by omega]
        exact hc

/-! ### Construction lemmas -/

theorem extractFirst_none {α : Type} (pred : α → Bool) (l : List α)
    (h : ∀ x ∈ l, pred x = false) : extractFirst pred l = none := by
  induction l with
  | nil => rfl
  | cons x xs ih =>
    simp only [extractFirst, h x (List.mem_cons_self x xs), Bool.false_eq_true, if_false]
    rw [ih fun y hy => h y (List.mem_cons_of_mem x hy)]

theorem extractFirst_mem_eq {α : Type} [DecidableEq α] (b : α) (l : List α) (hb : b ∈ l) :
    extractFirst (fun z => z == b) l = some (b, l.erase b) := by
  induction l with
  | nil => exact absurd hb (List.not_mem_nil b)
  | cons hd tl ih =>
    by_cases hhd : hd = b
    · subst hhd
      simp only [extractFirst, beq_self_eq_true, if_true]
      rw [List.erase_cons_head]
    · have hbeq : (hd == b) = false := beq_eq_false_iff_ne.mpr hhd
      have hmem : b ∈ tl := by
        rcases List.mem_cons.mp hb with hc | hc
        · exact absurd hc.symm hhd
        · exact hc
      simp only [extractFirst, hbeq, Bool.false_eq_true, if_false]
      rw [ih hmem, List.erase_cons_tail (by simp [hbeq])]

theorem extractFirst_map_pair (a : Protocol) (en : List Protocol) :
    extractFirst (fun pr => pr.1 == a) (en.map fun p => (p, Receiver.fresh)) =
      match extractFirst (fun p => p == a) en with
      | none => none
      | some (y, ys) => some ((y, Receiver.fresh), ys.map fun p => (p, Receiver.fresh)) := by
  induction en with
  | nil => rfl
  | cons x xs ih =>
    by_cases hx : (x == a) = true
    · simp only [List.map_cons, extractFirst, hx, if_true]
    · simp only [List.map_cons, extractFirst, hx, Bool.false_eq_true, if_false]
      rw [ih]
      cases extractFirst (fun p => p == a) xs with
      | none => rfl
      | some pr => cases pr; rfl

theorem newFrom_success (en : List Protocol)
    (hsf : Protocol.StatementFetching ∈ en) (hds : Protocol.DisputeSending ∈ en) :
    newFrom en = some
      ({ receivers := ((en.erase .StatementFetching).erase .DisputeSending).map
            fun p => (p, Receiver.fresh),
         statement_fetching := some Receiver.fresh,
         dispute_sending := some Receiver.fresh,
         next_poll := 0 },
       en.map fun p => (get_config p).2) := by
  have hds' : Protocol.DisputeSending ∈ en.erase .StatementFetching :=
    (List.mem_erase_of_ne (fun hc => Protocol.noConfusion hc)).mpr hds
  unfold newFrom
  dsimp only [get_config]
  rw [extractFirst_map_pair, extractFirst_mem_eq _ _ hsf]
  dsimp only
  rw [extractFirst_map_pair, extractFirst_mem_eq _ _ hds']

theorem newFrom_fail (en : List Protocol)
    (h : Protocol.StatementFetching ∉ en ∨ Protocol.DisputeSending ∉ en) :
    newFrom en = none := by
  rcases h with h | h
  · have := extractFirst_none (fun pr : Protocol × Receiver => pr.1 == Protocol.StatementFetching)
      (en.map fun p => (p, Receiver.fresh)) ?_
    · unfold newFrom
      dsimp only [get_config]
      rw [this]
    · intro x hx
      obtain ⟨p, hp, rfl⟩ := List.mem_map.mp hx
      exact beq_eq_false_iff_ne.mpr fun hc => h (hc ▸ hp)
  · by_cases hsf : Protocol.StatementFetching ∈ en
    · have hds' : Protocol.DisputeSending ∉ en.erase .StatementFetching := fun hc =>
        h (List.mem_of_mem_erase hc)
      have hnone := extractFirst_none (fun pr : Protocol × Receiver => pr.1 == Protocol.DisputeSending)
        ((en.erase .StatementFetching).map fun p => (p, Receiver.fresh)) ?_
      · unfold newFrom
        dsimp only [get_config]
        rw [extractFirst_map_pair, extractFirst_mem_eq _ _ hsf]
        dsimp only
        rw [hnone]
      · intro x hx
        obtain ⟨p, hp, rfl⟩ := List.mem_map.mp hx
        exact beq_eq_false_iff_ne.mpr fun hc => hds' (hc ▸ hp)
    · have := extractFirst_none (fun pr : Protocol × Receiver => pr.1 == Protocol.StatementFetching)
        (en.map fun p => (p, Receiver.fresh)) ?_
      · unfold newFrom
        dsimp only [get_config]
        rw [this]
      · intro x hx
        obtain ⟨p, hp, rfl⟩ := List.mem_map.mp hx
        exact beq_eq_false_iff_ne.mpr fun hc => hsf (hc ▸ hp)

theorem erase_erase_filter (en : List Protocol) (hnd : en.Nodup) :
    (en.erase .StatementFetching).erase .DisputeSending =
      en.filter fun p => (p != Protocol.StatementFetching) && (p != Protocol.DisputeSending) := by
  rw [hnd.erase_eq_filter, (hnd.filter _).erase_eq_filter, List.filter_filter]
  exact List.filter_congr fun a _ => Bool.and_comm _ _

/-! ### Projections of a production call -/

theorem poll_next_outcome (dec : Decoder) (m : RequestMultiplexer) :
    (poll_next dec m).outcome =
      (pollLoop dec m.receivers.length m.receivers m.next_poll
        m.receivers.length .terminated).outcome := by
  unfold poll_next
  dsimp only
  split <;> rfl

theorem poll_next_polled (dec : Decoder) (m : RequestMultiplexer) :
    (poll_next dec m).polled =
      (pollLoop dec m.receivers.length m.receivers m.next_poll
        m.receivers.length .terminated).polled := by
  unfold poll_next
  dsimp only
  split <;> rfl

/-! ### Take-once invariants -/

theorem applyOps_sf_none : ∀ (ops : List MuxOp) (m : RequestMultiplexer),
    m.statement_fetching = none → (applyOps ops m).statement_fetching = none := by
  intro ops
  induction ops with
  | nil => intro m h; exact h
  | cons op ops ih =>
    intro m h
    refine ih _ ?_
    cases op with
    | poll dec =>
      show (poll_next dec m).state.statement_fetching = none
      rw [poll_next_statement_fetching]
      exact h
    | takeStatement => rfl
    | takeDispute => exact h

theorem applyOps_ds_none : ∀ (ops : List MuxOp) (m : RequestMultiplexer),
    m.dispute_sending = none → (applyOps ops m).dispute_sending = none := by
  intro ops
  induction ops with
  | nil => intro m h; exact h
  | cons op ops ih =>
    intro m h
    refine ih _ ?_
    cases op with
    | poll dec =>
      show (poll_next dec m).state.dispute_sending = none
      rw [poll_next_dispute_sending]
      exact h
    | takeStatement => exact h
    | takeDispute => rfl

/-! ### Reachable states keep withheld tags out of the pool -/

theorem reachable_no_withheld {m : RequestMultiplexer} (h : Reachable m) :
    ∀ pr ∈ m.receivers,
      pr.1 ≠ Protocol.StatementFetching ∧ pr.1 ≠ Protocol.DisputeSending := by
  induction h with
  | init m cfgs hnew =>
    have hval : RequestMultiplexer.new =
        some (muxInit, Protocol.iter.map fun p => (get_config p).2) := rfl
    rw [hval] at hnew
    have h1 := Option.some.inj hnew
    have hm : muxInit = m := congrArg Prod.fst h1
    rw [← hm]
    decide
  | poll dec m hr ih =>
    intro pr hpr
    have hmem : pr.1 ∈ (poll_next dec m).state.receivers.map Prod.fst :=
      List.mem_map_of_mem _ hpr
    rw [poll_next_map_fst] at hmem
    obtain ⟨pr', hpr', hfst'⟩ := List.mem_map.mp hmem
    rw [← hfst']
    exact ih pr' hpr'
  | takeStatement m hr ih => exact ih
  | takeDispute m hr ih => exact ih

/-! ### Iterated production under an all-ready pool -/

theorem pollIter_succ_back (dec : Decoder) (k : Nat) (m : RequestMultiplexer) :
    pollIter dec (k + 1) m = (poll_next dec (pollIter dec k m)).state := by
  induction k generalizing m with
  | zero => rfl
  | succ k ih =>
    show pollIter dec (k + 1) (poll_next dec m).state = _
    rw [ih ((poll_next dec m).state)]
    rfl

/-- Production step taken from any state that agrees with the original
all-ready pool at the cursor channel. -/
theorem inv_step (dec : Decoder) (m s : RequestMultiplexer) (k : Nat)
    (hk : k < m.receivers.length)
    (hready : ∀ pr ∈ m.receivers, pr.2.terminated = false ∧ pr.2.buffer ≠ [])
    (hnp : s.next_poll = m.next_poll + k)
    (hlen : s.receivers.length = m.receivers.length)
    (hall : ∀ pr ∈ s.receivers, pr.2.terminated = false ∧
      pr.1 ≠ Protocol.StatementFetching ∧ pr.1 ≠ Protocol.DisputeSending)
    (huntouched : s.receivers.getD ((m.next_poll + k) % m.receivers.length) default =
      m.receivers.getD ((m.next_poll + k) % m.receivers.length) default) :
    ∃ p rx v rest r,
      m.receivers.getD ((m.next_poll + k) % m.receivers.length) default = (p, rx) ∧
      rx.buffer = v :: rest ∧
      poll_next dec s = ⟨.item r,
        { s with
            receivers := s.receivers.set ((m.next_poll + k) % m.receivers.length)
              (p, { rx with buffer := rest }),
            next_poll := m.next_poll + k + 1 },
        [(m.next_poll + k) % m.receivers.length],
        some ((m.next_poll + k) % m.receivers.length)⟩ := by
  have hNpos : 0 < m.receivers.length := by omega
  have hidx : (m.next_poll + k) % m.receivers.length < m.receivers.length :=
    Nat.mod_lt _ hNpos
  rcases hpair : m.receivers.getD ((m.next_poll + k) % m.receivers.length) default with ⟨p, rx⟩
  have hmemM : (p, rx) ∈ m.receivers := by
    rw [← hpair]
    exact getD_mem _ _ _ hidx
  have hbufM : rx.buffer ≠ [] := (hready _ hmemM).2
  have hmemS : (p, rx) ∈ s.receivers := by
    rw [← hpair, ← huntouched]
    exact getD_mem _ _ _ (by rw [hlen]; exact hidx)
  have hterm : rx.terminated = false := (hall _ hmemS).1
  have hp1 : p ≠ Protocol.StatementFetching := (hall _ hmemS).2.1
  have hp2 : p ≠ Protocol.DisputeSending := (hall _ hmemS).2.2
  obtain ⟨v, rest, hbuf⟩ := List.exists_cons_of_ne_nil hbufM
  have hms := multiplex_single_nonwithheld dec v hp1 hp2
  refine ⟨p, rx, v, rest,
    (decode_with_peer (dec p) v.peer v.payload).map
      (fun val => msgOf p { peer := v.peer, payload := val, pending_response := v.pending_response }),
    rfl, hbuf, ?_⟩
  have hpos : s.next_poll % s.receivers.length = (m.next_poll + k) % m.receivers.length := by
    rw [hnp, hlen]
  have hget : s.receivers.getD (s.next_poll % s.receivers.length) default = (p, rx) := by
    rw [hpos, huntouched, hpair]
  have hstep := poll_next_ready_step dec s (by rw [hlen]; exact hNpos) hget hterm hbuf hms
  rw [hstep, hpos, hnp]

theorem c4_inv (dec : Decoder) (m : RequestMultiplexer)
    (hready : ∀ pr ∈ m.receivers, pr.2.terminated = false ∧ pr.2.buffer ≠ [])
    (hpool : ∀ pr ∈ m.receivers,
      pr.1 ≠ Protocol.StatementFetching ∧ pr.1 ≠ Protocol.DisputeSending) :
    ∀ k, k ≤ m.receivers.length →
      (pollIter dec k m).next_poll = m.next_poll + k ∧
      (pollIter dec k m).receivers.length = m.receivers.length ∧
      (∀ pr ∈ (pollIter dec k m).receivers, pr.2.terminated = false ∧
        pr.1 ≠ Protocol.StatementFetching ∧ pr.1 ≠ Protocol.DisputeSending) ∧
      (∀ j, k ≤ j → j < m.receivers.length →
        (pollIter dec k m).receivers.getD ((m.next_poll + j) % m.receivers.length) default =
          m.receivers.getD ((m.next_poll + j) % m.receivers.length) default) := by
  intro k
  induction k with
  | zero =>
    intro _
    exact ⟨(Nat.add_zero m.next_poll).symm, rfl,
      fun pr hpr => ⟨(hready pr hpr).1, hpool pr hpr⟩,
      fun j _ _ => rfl⟩
  | succ k ih =>
    intro hk1
    have hk : k < m.receivers.length := by omega
    obtain ⟨hnp, hlen, hall, hun⟩ := ih (by omega)
    obtain ⟨p, rx, v, rest, r, hpair, hbuf, hstep⟩ :=
      inv_step dec m (pollIter dec k m) k hk hready hnp hlen hall
        (hun k (Nat.le_refl k) hk)
    have hmemS : (p, rx) ∈ (pollIter dec k m).receivers := by
      rw [← hpair, ← hun k (Nat.le_refl k) hk]
      exact getD_mem _ _ _ (by rw [hlen]; exact Nat.mod_lt _ (by omega))
    rw [pollIter_succ_back, hstep]
    dsimp only
    refine ⟨rfl, ?_, ?_, ?_⟩
    · rw [List.length_set]
      exact hlen
    · intro pr hpr
      rcases mem_set_subset hpr with h' | h'
      · rw [h']
        exact ⟨(hall _ hmemS).1, (hall _ hmemS).2⟩
      · exact hall _ h'
    · intro j hj hjN
      rw [getD_set_ne _ _ _ _ _
        (add_mod_ne m.next_poll hk hjN (by omega))]
      exact hun j (by omega) hjN

/-! ### Claim theorems -/

/-- Claim C1, amended: for every multiplexer state with a non-empty pool, if
during a production call a pooled channel reports permanent closure — i.e.
the scan reaches a closed channel with no buffered items before any channel
yields an item — that call returns end-of-stream, even when later pooled
channels still hold buffered, undelivered items (in particular when the
closed channel sits at the cursor). -/
theorem c1_fail_fast (dec : Decoder) (m : RequestMultiplexer) (j : Nat)
    (hj : j < m.receivers.length)
    (hpend : ∀ t, t < j →
      (m.receivers.getD ((m.next_poll + t) % m.receivers.length) default).2.terminated = false ∧
      (m.receivers.getD ((m.next_poll + t) % m.receivers.length) default).2.buffer = [] ∧
      (m.receivers.getD ((m.next_poll + t) % m.receivers.length) default).2.closed = false)
    (hterm : (m.receivers.getD ((m.next_poll + j) % m.receivers.length) default).2.terminated = false)
    (hbuf : (m.receivers.getD ((m.next_poll + j) % m.receivers.length) default).2.buffer = [])
    (hclosed : (m.receivers.getD ((m.next_poll + j) % m.receivers.length) default).2.closed = true) :
    (poll_next dec m).outcome = .terminated := by
  rw [poll_next_outcome]
  exact pollLoop_scan_closure dec m.receivers.length j m.receivers.length m.receivers
    m.next_poll .terminated hj hpend hterm hbuf hclosed

/-- Claim C1 witness: the closed-empty channel sits at the cursor while the
other pooled channel holds a buffered item; the call still ends the stream. -/
theorem c1_fail_fast_witness :
    (mC1wit.receivers.getD 1 default).2.buffer ≠ [] ∧
    (poll_next dec0 mC1wit).outcome = .terminated := by
  constructor
  · decide
  · exact c1_fail_fast dec0 mC1wit 0 (by decide)
      (fun t ht => absurd ht (Nat.not_lt_zero t)) (by decide) (by decide) (by decide)

/-- Claim C1 counterexample: one pooled channel (index 0) is closed with no
buffered items while another (index 1) holds a buffered item, yet the next
production call does not return end-of-stream — because the cursor sits at
the ready channel, it yields that channel's item instead. -/
theorem c1_counterexample :
    (mC1cex.receivers.getD 0 default).2.closed = true ∧
    (mC1cex.receivers.getD 0 default).2.buffer = [] ∧
    (mC1cex.receivers.getD 1 default).2.buffer ≠ [] ∧
    (poll_next dec0 mC1cex).outcome =
      .item (.ok (.collationFetching { peer := 7, payload := 5, pending_response := 9 })) ∧
    (poll_next dec0 mC1cex).outcome ≠ .terminated := by
  refine ⟨rfl, rfl, by decide, rfl, by decide⟩

/-- Claim C2, code-bug evidence: from a state with an open pending channel at
the cursor and a closed channel behind it, the production call returns
end-of-stream (the closed channel is observed mid-scan and the early return
skips the cursor update), yet the termination query on the resulting state
still answers `false` — it inspects the unfinished channel at the stale
cursor.  This contradicts the spec and the stream's own contract that the
merged stream ends permanently. -/
theorem c2_termination_query_bug :
    (poll_next dec0 mBug).outcome = .terminated ∧
    is_terminated (poll_next dec0 mBug).state = false ∧
    (poll_next dec0 mBug).state.next_poll = 0 := by
  refine ⟨rfl, rfl, rfl⟩

/-- Claim C3: for every duplicate-free protocol enumeration containing both
withheld tags, construction succeeds, returns one channel configuration per
enumerated tag in enumeration order, moves the withheld receivers into their
slots, and pools exactly the non-withheld tags in enumeration order; if
either withheld tag is missing, construction fails (startup panic). -/
theorem c3_construction :
    (∀ en : List Protocol, en.Nodup →
      Protocol.StatementFetching ∈ en → Protocol.DisputeSending ∈ en →
      newFrom en = some
        ({ receivers := (en.filter fun p =>
              (p != Protocol.StatementFetching) && (p != Protocol.DisputeSending)).map
              fun p => (p, Receiver.fresh),
           statement_fetching := some Receiver.fresh,
           dispute_sending := some Receiver.fresh,
           next_poll := 0 },
         en.map fun p => (get_config p).2)) ∧
    (∀ en : List Protocol,
      Protocol.StatementFetching ∉ en ∨ Protocol.DisputeSending ∉ en →
      newFrom en = none) := by
  constructor
  · intro en hnd hsf hds
    rw [newFrom_success en hsf hds, erase_erase_filter en hnd]
  · intro en h
    exact newFrom_fail en h

/-- Claim C3 witness: the actual enumeration (`Protocol::iter`) succeeds and
produces `muxInit` plus one configuration per tag; an enumeration missing the
withheld tags fails. -/
theorem c3_construction_witness :
    newFrom Protocol.iter = some
      ({ receivers := (Protocol.iter.filter fun p =>
            (p != Protocol.StatementFetching) && (p != Protocol.DisputeSending)).map
            fun p => (p, Receiver.fresh),
         statement_fetching := some Receiver.fresh,
         dispute_sending := some Receiver.fresh,
         next_poll := 0 },
       Protocol.iter.map fun p => (get_config p).2) ∧
    RequestMultiplexer.new = some
      (muxInit, Protocol.iter.map fun p => (get_config p).2) ∧
    newFrom [Protocol.ChunkFetching] = none := by
  refine ⟨?_, rfl, ?_⟩
  · exact c3_construction.1 Protocol.iter (by decide) (by decide) (by decide)
  · exact c3_construction.2 [Protocol.ChunkFetching] (Or.inl (by decide))

/-- Claim C4: with every pooled channel live and holding a ready item, each
production call yields an item produced by the channel at the cursor and
leaves the cursor one past the producer, so over `N` consecutive calls every
channel produces exactly once — no channel is skipped more than `N − 1`
consecutive productions. -/
theorem c4_round_robin_fairness (dec : Decoder) (m : RequestMultiplexer)
    (hready : ∀ pr ∈ m.receivers, pr.2.terminated = false ∧ pr.2.buffer ≠ [])
    (hpool : ∀ pr ∈ m.receivers,
      pr.1 ≠ Protocol.StatementFetching ∧ pr.1 ≠ Protocol.DisputeSending) :
    (∀ k, k < m.receivers.length →
      (∃ r, (poll_next dec (pollIter dec k m)).outcome = .item r) ∧
      (poll_next dec (pollIter dec k m)).produced =
        some ((m.next_poll + k) % m.receivers.length) ∧
      (pollIter dec k m).next_poll = m.next_poll + k ∧
      (poll_next dec (pollIter dec k m)).state.next_poll = m.next_poll + k + 1) ∧
    (∀ j, j < m.receivers.length → ∃ k, k < m.receivers.length ∧
      (poll_next dec (pollIter dec k m)).produced = some j) := by
  have hmain : ∀ k, k < m.receivers.length →
      (∃ r, (poll_next dec (pollIter dec k m)).outcome = .item r) ∧
      (poll_next dec (pollIter dec k m)).produced =
        some ((m.next_poll + k) % m.receivers.length) ∧
      (pollIter dec k m).next_poll = m.next_poll + k ∧
      (poll_next dec (pollIter dec k m)).state.next_poll = m.next_poll + k + 1 := by
    intro k hk
    obtain ⟨hnp, hlen, hall, hun⟩ := c4_inv dec m hready hpool k (by omega)
    obtain ⟨p, rx, v, rest, r, hpair, hbuf, hstep⟩ :=
      inv_step dec m (pollIter dec k m) k hk hready hnp hlen hall
        (hun k (Nat.le_refl k) hk)
    rw [hstep]
    exact ⟨⟨r, rfl⟩, rfl, hnp, rfl⟩
  constructor
  · exact hmain
  · intro j hj
    obtain ⟨k, hk, hmod⟩ :=
      exists_add_mod_eq m.receivers.length m.next_poll j (by omega) hj
    refine ⟨k, hk, ?_⟩
    rw [(hmain k hk).2.1, hmod]

/-- Claim C4 witness: two pooled channels, both ready; the first call
produces from channel 0, the second from channel 1. -/
theorem c4_round_robin_fairness_witness :
    (poll_next dec0 mC4).produced = some 0 ∧
    (poll_next dec0 (pollIter dec0 1 mC4)).produced = some 1 := by
  obtain ⟨h1, -⟩ := c4_round_robin_fairness dec0 mC4 (by decide) (by decide)
  exact ⟨(h1 0 (by decide)).2.1, (h1 1 (by decide)).2.1⟩

/-- Claim C5: a raw request whose payload fails to decode yields a
`MultiplexError` carrying that request's origin peer and the failure detail;
the stream does not terminate, and a later well-formed payload on a different
pooled channel is still decoded and delivered. -/
theorem c5_decode_error_isolation (dec : Decoder) (p₁ p₂ : Protocol)
    (r₁ r₂ : IncomingRequest) (c₁ c₂ : Bool) (sf ds : Option Receiver)
    (e : DecodingError) (v : Nat) (m : RequestMultiplexer)
    (hp₁s : p₁ ≠ Protocol.StatementFetching) (hp₁d : p₁ ≠ Protocol.DisputeSending)
    (hp₂s : p₂ ≠ Protocol.StatementFetching) (hp₂d : p₂ ≠ Protocol.DisputeSending)
    (hdec₁ : dec p₁ r₁.payload = .error e)
    (hdec₂ : dec p₂ r₂.payload = .ok v)
    (hm : m = { receivers :=
                  [(p₁, { buffer := [r₁], closed := c₁, terminated := false }),
                   (p₂, { buffer := [r₂], closed := c₂, terminated := false })],
                statement_fetching := sf, dispute_sending := ds, next_poll := 0 }) :
    (poll_next dec m).outcome = .item (.error { peer := r₁.peer, error := e }) ∧
    is_terminated (poll_next dec m).state = false ∧
    (poll_next dec (poll_next dec m).state).outcome =
      .item (.ok (msgOf p₂
        { peer := r₂.peer, payload := v, pending_response := r₂.pending_response })) := by
  subst hm
  have hms₁ : multiplex_single dec p₁ r₁ =
      some (.error { peer := r₁.peer, error := e }) := by
    rw [multiplex_single_nonwithheld dec r₁ hp₁s hp₁d]
    unfold decode_with_peer
    rw [hdec₁]
    rfl
  have hms₂ : multiplex_single dec p₂ r₂ =
      some (.ok (msgOf p₂
        { peer := r₂.peer, payload := v, pending_response := r₂.pending_response })) := by
    rw [multiplex_single_nonwithheld dec r₂ hp₂s hp₂d]
    unfold decode_with_peer
    rw [hdec₂]
    rfl
  have hstep₁ := poll_next_ready_step dec
    { receivers := [(p₁, { buffer := [r₁], closed := c₁, terminated := false }),
                    (p₂, { buffer := [r₂], closed := c₂, terminated := false })],
      statement_fetching := sf, dispute_sending := ds, next_poll := 0 }
    (by simp) rfl rfl rfl hms₁
  rw [hstep₁]
  refine ⟨rfl, rfl, ?_⟩
  have hstep₂ := poll_next_ready_step dec
    { receivers := [(p₁, { buffer := [], closed := c₁, terminated := false }),
                    (p₂, { buffer := [r₂], closed := c₂, terminated := false })],
      statement_fetching := sf, dispute_sending := ds, next_poll := 1 }
    (by simp) rfl rfl rfl hms₂
  show (poll_next dec
      { receivers := [(p₁, { buffer := [], closed := c₁, terminated := false }),
                      (p₂, { buffer := [r₂], closed := c₂, terminated := false })],
        statement_fetching := sf, dispute_sending := ds, next_poll := 1 }).outcome = _
  rw [hstep₂]

/-- Claim C5 witness: concrete bad payload on channel 0, good payload on
channel 1. -/
theorem c5_decode_error_isolation_witness :
    (poll_next dec0 mC5).outcome =
      .item (.error { peer := 4, error := "empty payload" }) ∧
    is_terminated (poll_next dec0 mC5).state = false ∧
    (poll_next dec0 (poll_next dec0 mC5).state).outcome =
      .item (.ok (.povFetching { peer := 5, payload := 6, pending_response := 10 })) :=
  c5_decode_error_isolation dec0 .ChunkFetching .PoVFetching
    { payload := [], peer := 4, pending_response := 8 }
    { payload := [6], peer := 5, pending_response := 10 }
    false false none none "empty payload" 6 mC5
    (by decide) (by decide) (by decide) (by decide) rfl rfl rfl

/-- Claim C6: each withheld-receiver accessor returns the stored receiver on
its first call and nothing on every subsequent call, whatever operations are
interleaved. -/
theorem c6_take_once (m : RequestMultiplexer) (r s : Receiver)
    (h1 : m.statement_fetching = some r) (h2 : m.dispute_sending = some s) :
    (get_statement_fetching m).1 = some r ∧
    (get_dispute_sending m).1 = some s ∧
    (∀ ops : List MuxOp,
      (get_statement_fetching (applyOps ops (get_statement_fetching m).2)).1 = none) ∧
    (∀ ops : List MuxOp,
      (get_dispute_sending (applyOps ops (get_dispute_sending m).2)).1 = none) := by
  refine ⟨h1, h2, ?_, ?_⟩
  · intro ops
    exact applyOps_sf_none ops _ rfl
  · intro ops
    exact applyOps_ds_none ops _ rfl

/-- Claim C6 witness: on the constructed multiplexer, both accessors return
their receiver once; after taking, interleaved polls and takes still leave
nothing to return. -/
theorem c6_take_once_witness :
    (get_statement_fetching muxInit).1 = some Receiver.fresh ∧
    (get_dispute_sending muxInit).1 = some Receiver.fresh ∧
    (get_statement_fetching
      (applyOps [.poll dec0, .takeDispute] (get_statement_fetching muxInit).2)).1 = none ∧
    (get_dispute_sending
      (applyOps [.poll dec0, .takeStatement] (get_dispute_sending muxInit).2)).1 = none := by
  obtain ⟨a, b, c, d⟩ := c6_take_once muxInit Receiver.fresh Receiver.fresh rfl rfl
  exact ⟨a, b, c _, d _⟩

/-- Claim C7: with an empty round-robin pool the termination query reports
finished and every production call returns end-of-stream immediately, leaving
the state unchanged. -/
theorem c7_empty_pool (dec : Decoder) (m : RequestMultiplexer)
    (h : m.receivers = []) :
    is_terminated m = true ∧ poll_next dec m = ⟨.terminated, m, [], none⟩ := by
  rcases m with ⟨recvs, sf, ds, np⟩
  dsimp only at h
  subst h
  exact ⟨rfl, rfl⟩

/-- Claim C7 witness. -/
theorem c7_empty_pool_witness :
    is_terminated mC7 = true ∧ poll_next dec0 mC7 = ⟨.terminated, mC7, [], none⟩ :=
  c7_empty_pool dec0 mC7 rfl

/-- Claim C8, amended: a production call that returns end-of-stream leaves
the stored cursor, the withheld slots, and the pool's protocols, buffered
items and closed flags unchanged; the only possible change is that the
channel observed closed is marked terminated. -/
theorem c8_frame (dec : Decoder) (m : RequestMultiplexer)
    (h : (poll_next dec m).outcome = .terminated) :
    (poll_next dec m).state.next_poll = m.next_poll ∧
    (poll_next dec m).state.statement_fetching = m.statement_fetching ∧
    (poll_next dec m).state.dispute_sending = m.dispute_sending ∧
    (poll_next dec m).state.receivers.map Prod.fst = m.receivers.map Prod.fst ∧
    (poll_next dec m).state.receivers.map (fun pr => pr.2.buffer) =
      m.receivers.map (fun pr => pr.2.buffer) ∧
    (poll_next dec m).state.receivers.map (fun pr => pr.2.closed) =
      m.receivers.map (fun pr => pr.2.closed) := by
  have hout : (pollLoop dec m.receivers.length m.receivers m.next_poll
      m.receivers.length .terminated).outcome = .terminated := by
    rw [← poll_next_outcome]
    exact h
  have hframe := pollLoop_term_frame dec m.receivers.length m.receivers.length
    m.receivers m.next_poll .terminated hout
  have hfst := pollLoop_map_fst dec m.receivers.length m.receivers.length
    m.receivers m.next_poll .terminated
  rcases pollLoop_term_cases dec m.receivers.length m.receivers.length
      m.receivers m.next_poll .terminated hout with hearly | hbase
  · unfold poll_next
    dsimp only
    rw [if_pos hearly]
    exact ⟨rfl, rfl, rfl, hfst, hframe.1, hframe.2⟩
  · unfold poll_next
    dsimp only
    rw [hbase]
    exact ⟨rfl, rfl, rfl, rfl, rfl, rfl⟩

/-- Claim C8 witness: a closure observed at the cursor ends the stream and
the frame holds. -/
theorem c8_frame_witness :
    (poll_next dec0 m8).state.next_poll = m8.next_poll ∧
    (poll_next dec0 m8).state.statement_fetching = m8.statement_fetching ∧
    (poll_next dec0 m8).state.dispute_sending = m8.dispute_sending ∧
    (poll_next dec0 m8).state.receivers.map Prod.fst = m8.receivers.map Prod.fst ∧
    (poll_next dec0 m8).state.receivers.map (fun pr => pr.2.buffer) =
      m8.receivers.map (fun pr => pr.2.buffer) ∧
    (poll_next dec0 m8).state.receivers.map (fun pr => pr.2.closed) =
      m8.receivers.map (fun pr => pr.2.closed) :=
  c8_frame dec0 m8 rfl

/-- Claim C8 counterexample: when a channel reports closure during the call,
the returned end-of-stream leaves the multiplexer in a *different* state —
the receiver that reported closure is now marked terminated, observably so
through the termination query. -/
theorem c8_counterexample :
    (poll_next dec0 m8).outcome = .terminated ∧
    (poll_next dec0 m8).state ≠ m8 ∧
    is_terminated m8 = false ∧
    is_terminated (poll_next dec0 m8).state = true := by
  refine ⟨rfl, by decide, rfl, rfl⟩

/-- Claim C9: in every state reachable from construction, the pool contains
no withheld tag, so no production call can hit the `unreachable!` branches of
the dispatch, and the merge never yields a message tagged with a withheld
protocol. -/
theorem c9_withheld_unreachable (dec : Decoder) (m : RequestMultiplexer)
    (h : Reachable m) :
    (∀ q, (poll_next dec m).outcome ≠ .panicked q) ∧
    (∀ a, (poll_next dec m).outcome = .item (.ok a) →
      a.protocol ≠ Protocol.StatementFetching ∧
      a.protocol ≠ Protocol.DisputeSending) := by
  have hsafe := pollLoop_safe dec m.receivers.length m.receivers.length
    m.receivers m.next_poll .terminated (reachable_no_withheld h) (Or.inr rfl)
  rw [poll_next_outcome]
  exact hsafe

/-- Claim C9 witness. -/
theorem c9_withheld_unreachable_witness :
    (poll_next dec0 muxInit).outcome ≠ .panicked Protocol.StatementFetching :=
  (c9_withheld_unreachable dec0 muxInit
    (Reachable.init muxInit (Protocol.iter.map fun p => (get_config p).2) rfl)).1 _

/-- Claim C10: every production call polls each pooled channel at most once —
the polled trace is duplicate-free and no longer than the pool — so the scan
always terminates after at most pool-size non-blocking reads. -/
theorem c10_scan_bounded (dec : Decoder) (m : RequestMultiplexer) :
    (poll_next dec m).polled.length ≤ m.receivers.length ∧
    (poll_next dec m).polled.Nodup := by
  obtain ⟨t, htle, heq⟩ := pollLoop_polled_spec dec m.receivers.length
    m.receivers.length m.receivers m.next_poll .terminated
  rw [poll_next_polled, heq]
  constructor
  · rw [List.length_map, List.length_range]
    exact htle
  · refine (List.nodup_range t).map_on ?_
    intro x hx y hy hf
    by_contra hne
    exact add_mod_ne m.next_poll
      (Nat.lt_of_lt_of_le (List.mem_range.mp hx) htle)
      (Nat.lt_of_lt_of_le (List.mem_range.mp hy) htle) hne hf

end Multiplexer
